import Mathlib

set_option maxRecDepth 8000

open scoped List

/-!
Shallow embedding of the blood-donation eligibility engine of `src/app.py`
(the functions `get_volume` and `check_availability`), together with the
calendar arithmetic those functions rely on (`datetime.date` ordering and
`dateutil.relativedelta` year/week/age arithmetic).
-/

/-- Biological sex of the donor (the `gender` radio button: 男性 / 女性). -/
inductive Gender
  | male
  | female
deriving DecidableEq

/-- Closed enumeration of donation types (`ALL_TYPES`): `400ml全血` (whole blood
400 ml), `200ml全血` (whole blood 200 ml), `成分献血` (component donation). -/
inductive DonationType
  | wb400
  | wb200
  | component
deriving DecidableEq

/-- Calendar date in the style of `datetime.date`: year, month (1..12),
day (1..length of the month). -/
structure Date where
  year : Nat
  month : Nat
  day : Nat
deriving DecidableEq

/-- Gregorian leap-year test, as `calendar.isleap`. -/
def isLeap (y : Nat) : Bool :=
  (y % 4 == 0 && y % 100 != 0) || y % 400 == 0

/-- Number of days of a month, as `calendar.monthrange(y, m)[1]`. -/
def daysInMonth (y m : Nat) : Nat :=
  if m = 2 then (if isLeap y then 29 else 28)
  else if m = 4 ∨ m = 6 ∨ m = 9 ∨ m = 11 then 30
  else 31

/-- A well-formed `datetime.date`: year at least `MINYEAR = 1`, month in 1..12,
day in 1..(length of the month). -/
def Date.Valid (d : Date) : Prop :=
  1 ≤ d.year ∧ 1 ≤ d.month ∧ d.month ≤ 12 ∧ 1 ≤ d.day ∧ d.day ≤ daysInMonth d.year d.month

instance (d : Date) : Decidable d.Valid := by
  unfold Date.Valid
  infer_instance

/-- Linearisation key for dates. For well-formed dates (month ≤ 12, day ≤ 31)
this key orders dates exactly like `datetime.date` comparison does, and exactly
like the `"%Y-%m-%d"` strings that the source sorts and minimises by. -/
def Date.key (d : Date) : Nat :=
  d.year * 10000 + d.month * 100 + d.day

/-- Strict date order (the source compares parsed dates with `<`). -/
def dateLt (a b : Date) : Prop := a.key < b.key

/-- Non-strict date order (the source compares parsed dates with `<=`). -/
def dateLe (a b : Date) : Prop := a.key ≤ b.key

instance : DecidableRel dateLt := fun a b => Nat.decLt a.key b.key

instance : DecidableRel dateLe := fun a b => Nat.decLe a.key b.key

/-- Boolean strict date comparison, used inside list filters. -/
def dateLtb (a b : Date) : Bool := decide (dateLt a b)

/-- Boolean non-strict date comparison, used inside list filters. -/
def dateLeb (a b : Date) : Bool := decide (dateLe a b)

/-- Successor day, with month and year rollover. -/
def nextDay (d : Date) : Date :=
  if d.day < daysInMonth d.year d.month then ⟨d.year, d.month, d.day + 1⟩
  else if d.month < 12 then ⟨d.year, d.month + 1, 1⟩
  else ⟨d.year + 1, 1, 1⟩

/-- Date plus `n` days. -/
def addDays (d : Date) : Nat → Date
  | 0 => d
  | n + 1 => nextDay (addDays d n)

/-- Date plus `k` weeks: `d + relativedelta(weeks=k)` adds exactly `7 * k` days,
respecting month and year rollover. -/
def addWeeks (d : Date) (k : Nat) : Date := addDays d (7 * k)

/-- Date plus `n` years, as `d + relativedelta(years=n)`: shift the year and
clamp the day to the target month's length (Feb 29 falls back to Feb 28). -/
def plusYears (d : Date) (n : Nat) : Date :=
  ⟨d.year + n, d.month, min d.day (daysInMonth (d.year + n) d.month)⟩

/-- Date minus `n` years, as `d - relativedelta(years=n)`, with the same
day clamping. -/
def minusYears (d : Date) (n : Nat) : Date :=
  ⟨d.year - n, d.month, min d.day (daysInMonth (d.year - n) d.month)⟩

/-- Age in whole years, as `relativedelta(dt1, dt2).years` from `dateutil`
(line 82 of `src/app.py` computes `relativedelta(target_date, birthday).years`).

The `dateutil` constructor starts from the raw month difference
`M0 = 12*(y1 - y2) + (m1 - m2)` and corrects it by one step so that shifting
`dt2` by the corrected number of months (with day-of-month clamping) does not
overshoot `dt1`. Shifting `dt2` by `M0` months lands on
`⟨y1, m1, min (daysInMonth y1 m1) d2⟩`, so for `dt2 ≤ dt1` the correction is
`-1` exactly when `d1` lies below that clamped day, and for `dt1 < dt2` it is
`+1` exactly when `d1` lies above it. The `.years` field is the corrected month
count divided by 12, rounded toward zero. -/
def ageYears (dt1 dt2 : Date) : Int :=
  let M0 : Int := 12 * ((dt1.year : Int) - (dt2.year : Int)) + ((dt1.month : Int) - (dt2.month : Int))
  let c : Nat := min (daysInMonth dt1.year dt1.month) dt2.day
  let months : Int :=
    if dateLeb dt2 dt1 then (if dt1.day < c then M0 - 1 else M0)
    else (if c < dt1.day then M0 + 1 else M0)
  if 0 ≤ months then ((months.toNat / 12 : Nat) : Int)
  else -(((-months).toNat / 12 : Nat) : Int)

/-- A donation record as the source keeps it in `st.session_state.history`:
`title` is the donation type and `start` the donation date. The source also
stores `location`, `notes` and `color`, which `check_availability` never reads;
the opaque `id` (a fresh UUID) is kept as a natural number so that two records
with equal date can be distinguished. -/
structure DonationRecord where
  id : Nat
  title : DonationType
  start : Date
deriving DecidableEq

/-- Lines 75..78: `get_volume` maps a donation type to its volume in
milliliters (anything that is not whole blood contributes 0). -/
def get_volume : DonationType → Nat
  | .wb200 => 200
  | .wb400 => 400
  | .component => 0

/-- Substring test `"全血" in title`: true exactly for the two whole-blood
types of the closed enumeration. -/
def isWholeBlood : DonationType → Bool
  | .wb400 => true
  | .wb200 => true
  | .component => false

/-- Substring test `"成分" in title`: true exactly for the component type. -/
def isComponent : DonationType → Bool
  | .component => true
  | .wb400 => false
  | .wb200 => false

/-- Line 25: `MAX_VOLUME = {"男性": 1200, "女性": 800}`. -/
def MAX_VOLUME : Gender → Nat
  | .male => 1200
  | .female => 800

/-- Lines 88..91: the age gate per donation type (Python chained comparisons
`16 <= age_on_date <= 69` and so on; the 400 ml gate depends on the gender). -/
def ageOk (don_type : DonationType) (gender : Gender) (age : Int) : Bool :=
  match don_type with
  | .wb200 => decide (16 ≤ age) && decide (age ≤ 69)
  | .wb400 =>
    match gender with
    | .male => decide (17 ≤ age) && decide (age ≤ 69)
    | .female => decide (18 ≤ age) && decide (age ≤ 69)
  | .component => decide (18 ≤ age) && decide (age ≤ 69)

/-- Ordering relation used by `sorted(history, key=lambda x: x['start'])`:
the `"%Y-%m-%d"` start strings compare exactly like the dates themselves. -/
def recordLe (a b : DonationRecord) : Prop := dateLe a.start b.start

instance : DecidableRel recordLe := fun a b => Nat.decLe a.start.key b.start.key

instance : IsTotal DonationRecord recordLe :=
  ⟨fun a b => Nat.le_total a.start.key b.start.key⟩

instance : IsTrans DonationRecord recordLe :=
  ⟨fun _ _ _ hab hbc => Nat.le_trans hab hbc⟩

/-- Line 83: `sorted_history = sorted(history, key=lambda x: x['start'])`.
Python's `sorted` is a stable sort by the key; stable insertion sort on the
non-strict key order produces the identical list. -/
def sortedHistory (history : List DonationRecord) : List DonationRecord :=
  List.insertionSort recordLe history

/-- Lines 97..104: the minimum-interval rule. `next_available` starts at the
reference donation's date and is advanced by a number of weeks keyed on the
reference record's type (not on the requested type), except that a component
request after whole blood waits 8 weeks. -/
def nextAvailableAfter (last : DonationRecord) (don_type : DonationType) (gender : Gender) : Date :=
  if isWholeBlood last.title then
    if don_type = DonationType.component then addWeeks last.start 8
    else if last.title = DonationType.wb400 then
      addWeeks last.start (if gender = Gender.male then 12 else 16)
    else if last.title = DonationType.wb200 then addWeeks last.start 4
    else last.start
  else if isComponent last.title then addWeeks last.start 2
  else last.start

/-- Line 84: the date-ascending view restricted to dates strictly before the
target, `[h for h in sorted_history if ...date() < target_date]`. -/
def donations_before_target (target : Date) (sorted_history : List DonationRecord) : List DonationRecord :=
  sorted_history.filter fun h => dateLtb h.start target

/-- Lines 85 and 96..107: the reference prior donation is the last entry of
the date-ascending view restricted to dates strictly before the target
(`donations_before_target[-1]`), and the gate blocks exactly when
`target_date < next_available`. -/
def intervalBlock (target : Date) (sorted_history : List DonationRecord) (gender : Gender) (don_type : DonationType) : Option Date :=
  match (donations_before_target target sorted_history).getLast? with
  | none => none
  | some last =>
    if dateLtb target (nextAvailableAfter last don_type gender) then
      some (nextAvailableAfter last don_type gender)
    else none

/-- Line 110: `window_start = target_date - relativedelta(years=1)`. -/
def windowStart (target : Date) : Date := minusYears target 1

/-- Line 111: membership in the open annual window,
`window_start < h['start'] < target_date and "全血" in h['title']`. -/
def inOpenWindow (target : Date) (h : DonationRecord) : Bool :=
  dateLtb (windowStart target) h.start && dateLtb h.start target && isWholeBlood h.title

/-- Line 115: membership in the half-open annual window,
`window_start <= h['start'] < target_date and "全血" in h['title']`. -/
def inHalfOpenWindow (target : Date) (h : DonationRecord) : Bool :=
  dateLeb (windowStart target) h.start && dateLtb h.start target && isWholeBlood h.title

/-- Line 112: total whole-blood volume donated strictly inside the open
window. The filter-then-sum is invariant under reordering of the list, so it
can be taken over any view of the history. -/
def annualVolume (target : Date) (history : List DonationRecord) : Nat :=
  ((history.filter (inOpenWindow target)).map fun h => get_volume h.title).sum

/-- Line 117: `min(donations_in_window, key=lambda x: x['start'])`. Python's
`min` keeps the first element attaining the minimal key, replacing the current
best only on a strictly smaller key. -/
def minByStart (best : DonationRecord) : List DonationRecord → DonationRecord
  | [] => best
  | x :: xs => if dateLtb x.start best.start then minByStart x xs else minByStart best xs

/-- Reason codes of a blocked verdict: `"年齢制限"` (age restriction),
`"献血間隔"` (minimum interval), `"年間総採血量上限"` (annual volume cap). -/
inductive Reason
  | ageRestriction
  | minimumInterval
  | annualVolumeCap
deriving DecidableEq

/-- Per-type verdict: the dict `{"available": True}` or
`{"available": False, "reason": r}` with an optional `"next"` date. -/
inductive Verdict
  | available
  | blocked (reason : Reason) (next : Option Date)
deriving DecidableEq

/-- Lines 87..122: the body of the `for don_type in ALL_TYPES` loop of
`check_availability`, executed on the already sorted history view. The gates
run in source order: age, minimum interval, annual volume cap; when the cap is
exceeded but the half-open window holds no record at all, the source falls
through to `{"available": True}`. -/
def checkTypeSorted (target : Date) (sorted_history : List DonationRecord) (gender : Gender) (birthday : Date) (don_type : DonationType) : Verdict :=
  if !ageOk don_type gender (ageYears target birthday) then
    Verdict.blocked Reason.ageRestriction none
  else
    match intervalBlock target sorted_history gender don_type with
    | some next_available => Verdict.blocked Reason.minimumInterval (some next_available)
    | none =>
      if isWholeBlood don_type then
        if MAX_VOLUME gender < annualVolume target sorted_history + get_volume don_type then
          match sorted_history.filter (inHalfOpenWindow target) with
          | [] => Verdict.available
          | f :: rest =>
            Verdict.blocked Reason.annualVolumeCap (some (plusYears (minByStart f rest).start 1))
        else Verdict.available
      else Verdict.available

/-- Lines 80..123: `check_availability(target_date, history, gender, birthday)`
as the verdict it assigns to each donation type (the returned dict holds one
entry per member of `ALL_TYPES`). -/
def check_availability (target : Date) (history : List DonationRecord) (gender : Gender) (birthday : Date) (don_type : DonationType) : Verdict :=
  checkTypeSorted target (sortedHistory history) gender birthday don_type

/-- The mutable state the engine is called against: `st.session_state.history`.
`check_availability` receives the collection as an argument and only reads it. -/
structure EngineState where
  history : List DonationRecord
deriving DecidableEq

/-- One call of the engine against the session state, returning the verdict map
together with the state as it is left behind: the source never assigns into
`st.session_state` from inside `check_availability`. -/
def evaluate (target : Date) (gender : Gender) (birthday : Date) (s : EngineState) : (DonationType → Verdict) × EngineState :=
  (fun don_type => check_availability target s.history gender birthday don_type, s)

section SanityChecks

example : ageYears ⟨2018, 3, 10⟩ ⟨2000, 3, 10⟩ = 18 := by decide

example : ageYears ⟨2018, 3, 9⟩ ⟨2000, 3, 10⟩ = 17 := by decide

example : ageYears ⟨2018, 2, 28⟩ ⟨2000, 2, 29⟩ = 18 := by decide

example : ageYears ⟨2020, 6, 15⟩ ⟨2030, 1, 1⟩ = -9 := by decide

example : addWeeks ⟨2024, 1, 5⟩ 12 = ⟨2024, 3, 29⟩ := by decide

example : plusYears ⟨2023, 6, 15⟩ 1 = ⟨2024, 6, 15⟩ := by decide

example : minusYears ⟨2024, 6, 15⟩ 1 = ⟨2023, 6, 15⟩ := by decide

example : minusYears ⟨2024, 2, 29⟩ 1 = ⟨2023, 2, 28⟩ := by decide

example :
    check_availability ⟨2024, 6, 15⟩ [] Gender.male ⟨1990, 1, 1⟩ DonationType.wb400 =
      Verdict.available := by decide

example :
    check_availability ⟨2024, 6, 15⟩ [⟨0, DonationType.wb400, ⟨2024, 6, 1⟩⟩] Gender.male
      ⟨1990, 1, 1⟩ DonationType.wb400 =
      Verdict.blocked Reason.minimumInterval (some ⟨2024, 8, 24⟩) := by decide

end SanityChecks

/-! Basic calendar facts. -/

theorem daysInMonth_pos (y m : Nat) : 1 ≤ daysInMonth y m := by
  unfold daysInMonth
  split
  · split <;> omega
  · split <;> omega

theorem daysInMonth_le_31 (y m : Nat) : daysInMonth y m ≤ 31 := by
  unfold daysInMonth
  split
  · split <;> omega
  · split <;> omega

theorem Date.key_mk (y m d : Nat) : (Date.mk y m d).key = y * 10000 + m * 100 + d := rfl

theorem Date.valid_mk_iff {y m d : Nat} :
    (Date.mk y m d).Valid ↔ 1 ≤ y ∧ 1 ≤ m ∧ m ≤ 12 ∧ 1 ≤ d ∧ d ≤ daysInMonth y m :=
  Iff.rfl

/-- On well-formed dates the linearisation key is injective. -/
theorem Date.key_inj {a b : Date} (ha : a.Valid) (hb : b.Valid) (h : a.key = b.key) : a = b := by
  obtain ⟨ay, am, ad⟩ := a
  obtain ⟨by', bm, bd⟩ := b
  obtain ⟨-, ham1, ham2, had1, had2⟩ := ha
  obtain ⟨-, hbm1, hbm2, hbd1, hbd2⟩ := hb
  dsimp only at ham1 ham2 had1 had2 hbm1 hbm2 hbd1 hbd2
  have h31a : daysInMonth ay am ≤ 31 := daysInMonth_le_31 ay am
  have h31b : daysInMonth by' bm ≤ 31 := daysInMonth_le_31 by' bm
  rw [Date.key_mk, Date.key_mk] at h
  simp only [Date.mk.injEq]
  omega

theorem dateLtb_iff {a b : Date} : dateLtb a b = true ↔ dateLt a b := by
  simp [dateLtb]

theorem dateLeb_iff {a b : Date} : dateLeb a b = true ↔ dateLe a b := by
  simp [dateLeb]

theorem dateLtb_eq_false_iff {a b : Date} : dateLtb a b = false ↔ ¬dateLt a b := by
  simp [dateLtb]

theorem dateLeb_eq_false_iff {a b : Date} : dateLeb a b = false ↔ ¬dateLe a b := by
  simp [dateLeb]

theorem nextDay_valid {d : Date} (h : d.Valid) : (nextDay d).Valid := by
  obtain ⟨dy, dm, dd⟩ := d
  rw [Date.valid_mk_iff] at h
  obtain ⟨hy, hm1, hm2, hd1, hd2⟩ := h
  have hpos1 : 1 ≤ daysInMonth dy (dm + 1) := daysInMonth_pos dy (dm + 1)
  have hpos2 : 1 ≤ daysInMonth (dy + 1) 1 := daysInMonth_pos (dy + 1) 1
  unfold nextDay
  dsimp only
  split
  · rw [Date.valid_mk_iff]
    omega
  · split
    · rw [Date.valid_mk_iff]
      omega
    · rw [Date.valid_mk_iff]
      omega

/-- The successor day strictly increases the key: the year bound is not needed,
only the month and day bounds of the date are. -/
theorem key_lt_nextDay {d : Date} (hm1 : 1 ≤ d.month) (hm2 : d.month ≤ 12)
    (hd1 : 1 ≤ d.day) (hd2 : d.day ≤ daysInMonth d.year d.month) :
    d.key < (nextDay d).key := by
  obtain ⟨dy, dm, dd⟩ := d
  dsimp only at hm1 hm2 hd1 hd2
  have h31 : daysInMonth dy dm ≤ 31 := daysInMonth_le_31 dy dm
  unfold nextDay
  dsimp only
  split
  · rw [Date.key_mk, Date.key_mk]; omega
  · split
    · rw [Date.key_mk, Date.key_mk]; omega
    · rw [Date.key_mk, Date.key_mk]; omega

theorem addDays_valid {d : Date} (h : d.Valid) : ∀ n, (addDays d n).Valid
  | 0 => h
  | n + 1 => nextDay_valid (addDays_valid h n)

theorem key_le_addDays {d : Date} (h : d.Valid) : ∀ n, d.key ≤ (addDays d n).key
  | 0 => Nat.le_refl _
  | n + 1 => by
    have h1 := key_le_addDays h n
    have hv := addDays_valid h n
    have h2 := key_lt_nextDay hv.2.1 hv.2.2.1 hv.2.2.2.1 hv.2.2.2.2
    exact Nat.le_trans h1 (Nat.le_of_lt h2)

theorem key_lt_addDays {d : Date} (h : d.Valid) {n : Nat} (hn : 0 < n) :
    d.key < (addDays d n).key := by
  cases n with
  | zero => omega
  | succ m =>
    have h1 := key_le_addDays h m
    have hv := addDays_valid h m
    have h2 := key_lt_nextDay hv.2.1 hv.2.2.1 hv.2.2.2.1 hv.2.2.2.2
    exact Nat.lt_of_le_of_lt h1 h2

theorem addDays_add (d : Date) (m : Nat) : ∀ n, addDays d (m + n) = addDays (addDays d m) n
  | 0 => rfl
  | n + 1 => by
    show nextDay (addDays d (m + n)) = nextDay (addDays (addDays d m) n)
    rw [addDays_add d m n]

/-! Facts about the one-year window boundary. -/

theorem windowStart_lt {t : Date} (ht : t.Valid) : dateLt (windowStart t) t := by
  obtain ⟨ty, tm, td⟩ := t
  obtain ⟨hy, hm1, hm2, hd1, hd2⟩ := ht
  dsimp only at hy hm1 hm2 hd1 hd2
  have h31 : daysInMonth (ty - 1) tm ≤ 31 := daysInMonth_le_31 (ty - 1) tm
  unfold windowStart minusYears dateLt
  dsimp only
  rw [Date.key_mk, Date.key_mk]
  omega

theorem windowStart_lt_nextDay {t : Date} (ht : t.Valid) :
    dateLt (windowStart t) (nextDay (windowStart t)) := by
  obtain ⟨ty, tm, td⟩ := t
  obtain ⟨hy, hm1, hm2, hd1, hd2⟩ := ht
  dsimp only at hy hm1 hm2 hd1 hd2
  have hpos : 1 ≤ daysInMonth (ty - 1) tm := daysInMonth_pos (ty - 1) tm
  exact key_lt_nextDay (d := windowStart ⟨ty, tm, td⟩) hm1 hm2
    (by simp only [windowStart, minusYears]; omega)
    (by simp only [windowStart, minusYears]; omega)

theorem nextDay_windowStart_lt {t : Date} (ht : t.Valid) :
    dateLt (nextDay (windowStart t)) t := by
  obtain ⟨ty, tm, td⟩ := t
  obtain ⟨hy, hm1, hm2, hd1, hd2⟩ := ht
  dsimp only at hy hm1 hm2 hd1 hd2
  have hA : daysInMonth (ty - 1) tm ≤ 31 := daysInMonth_le_31 (ty - 1) tm
  have hB : 1 ≤ daysInMonth (ty - 1) tm := daysInMonth_pos (ty - 1) tm
  have hC : daysInMonth ty tm ≤ 31 := daysInMonth_le_31 ty tm
  unfold windowStart minusYears nextDay dateLt
  dsimp only
  split
  · rw [Date.key_mk, Date.key_mk]; omega
  · split
    · rw [Date.key_mk, Date.key_mk]; omega
    · rw [Date.key_mk, Date.key_mk]; omega

/-! The computed age is nonpositive whenever the target date lies strictly
before the birth date. -/

theorem ageYears_nonpos {t b : Date} (ht : t.Valid) (hb : b.Valid) (h : dateLt t b) :
    ageYears t b ≤ 0 := by
  obtain ⟨ty, tm, td⟩ := t
  obtain ⟨by', bm, bd⟩ := b
  obtain ⟨hty, htm1, htm2, htd1, htd2⟩ := ht
  obtain ⟨hby, hbm1, hbm2, hbd1, hbd2⟩ := hb
  dsimp only at hty htm1 htm2 htd1 htd2 hby hbm1 hbm2 hbd1 hbd2
  have h31t : daysInMonth ty tm ≤ 31 := daysInMonth_le_31 ty tm
  have h31b : daysInMonth by' bm ≤ 31 := daysInMonth_le_31 by' bm
  unfold dateLt at h
  rw [Date.key_mk, Date.key_mk] at h
  have hleb : dateLeb ⟨by', bm, bd⟩ ⟨ty, tm, td⟩ = false := by
    rw [dateLeb_eq_false_iff]
    unfold dateLe
    rw [Date.key_mk, Date.key_mk]
    omega
  unfold ageYears
  rw [hleb]
  simp only [Bool.false_eq_true, if_false]
  split
  · split <;> omega
  · split <;> omega

theorem ageOk_eq_false_of_nonpos (don_type : DonationType) (gender : Gender) {age : Int}
    (h : age ≤ 0) : ageOk don_type gender age = false := by
  have h16 : ¬(16 : Int) ≤ age := by omega
  have h17 : ¬(17 : Int) ≤ age := by omega
  have h18 : ¬(18 : Int) ≤ age := by omega
  cases don_type <;> cases gender <;>
    simp [ageOk, decide_eq_false h16, decide_eq_false h17, decide_eq_false h18]

/-! Facts about the sorted view, the window minimum and the last element. -/

theorem sortedHistory_perm (history : List DonationRecord) : sortedHistory history ~ history :=
  List.perm_insertionSort recordLe history

theorem mem_sortedHistory {history : List DonationRecord} {r : DonationRecord} :
    r ∈ sortedHistory history ↔ r ∈ history :=
  (sortedHistory_perm history).mem_iff

theorem minByStart_mem (best : DonationRecord) (l : List DonationRecord) :
    minByStart best l ∈ best :: l := by
  induction l generalizing best with
  | nil => simp [minByStart]
  | cons x xs ih =>
    unfold minByStart
    split
    · exact List.mem_cons_of_mem best (ih x)
    · rcases List.mem_cons.mp (ih best) with h | h
      · rw [h]
        exact List.mem_cons_self best (x :: xs)
      · exact List.mem_cons_of_mem best (List.mem_cons_of_mem x h)

theorem minByStart_key_le (best : DonationRecord) (l : List DonationRecord) :
    ∀ x ∈ best :: l, (minByStart best l).start.key ≤ x.start.key := by
  induction l generalizing best with
  | nil =>
    intro x hx
    rw [List.mem_singleton] at hx
    subst hx
    exact Nat.le_refl _
  | cons y ys ih =>
    intro x hx
    have hyy : (minByStart y ys).start.key ≤ y.start.key := ih y y (List.mem_cons_self y ys)
    have hbb : (minByStart best ys).start.key ≤ best.start.key :=
      ih best best (List.mem_cons_self best ys)
    unfold minByStart
    split
    · rename_i hlt
      simp only [dateLtb, dateLt, decide_eq_true_eq] at hlt
      rcases List.mem_cons.mp hx with rfl | hx'
      · exact Nat.le_trans hyy (Nat.le_of_lt hlt)
      · rcases List.mem_cons.mp hx' with rfl | hx''
        · exact hyy
        · exact ih y x (List.mem_cons_of_mem y hx'')
    · rename_i hnlt
      simp only [dateLtb, dateLt, decide_eq_true_eq] at hnlt
      have hble : best.start.key ≤ y.start.key := Nat.le_of_not_lt hnlt
      rcases List.mem_cons.mp hx with rfl | hx'
      · exact hbb
      · rcases List.mem_cons.mp hx' with rfl | hx''
        · exact Nat.le_trans hbb hble
        · exact ih best x (List.mem_cons_of_mem best hx'')

/-- If `[a, b]` is a sublist of `L` and `a` occurs at most once in `L`, then `a`
is not the last element of `L`: some later element (at least `b`) follows it. -/
theorem getLast?_ne_of_pair_sublist {α : Type} [DecidableEq α] {a b : α} :
    ∀ {L : List α}, [a, b] <+ L → L.count a ≤ 1 → L.getLast? ≠ some a := by
  intro L
  induction L with
  | nil =>
    intro h
    exact absurd h (by simp)
  | cons x xs ih =>
    intro h hc hlast
    cases h with
    | cons _ h' =>
      have hne : xs ≠ [] := by
        intro he
        rw [he] at h'
        exact absurd h' (by simp)
      obtain ⟨y, ys, rfl⟩ := List.exists_cons_of_ne_nil hne
      rw [List.getLast?_cons_cons] at hlast
      have hc' : (y :: ys).count a ≤ 1 :=
        Nat.le_trans (List.Sublist.count_le (List.sublist_cons_self x (y :: ys)) a) hc
      exact ih h' hc' hlast
    | cons₂ _ h' =>
      have hbmem : b ∈ xs := List.singleton_sublist.mp h'
      obtain ⟨y, ys, rfl⟩ := List.exists_cons_of_ne_nil (List.ne_nil_of_mem hbmem)
      rw [List.getLast?_cons_cons] at hlast
      have hmem : a ∈ y :: ys := List.mem_of_getLast?_eq_some hlast
      rw [List.count_cons_self] at hc
      have : (y :: ys).count a = 0 := by omega
      exact absurd hmem (List.count_eq_zero.mp this)

/-! Claim theorems. -/

/-- Claim C1, counterexample: at a concrete input whose birth date (2030-01-01)
lies strictly after the target date (2020-06-15), `check_availability` does not
reject the call: it evaluates normally and returns a full verdict map (one
verdict per donation type), contradicting the claim that no verdict map is
produced. -/
theorem precondition_violation_not_rejected :
    check_availability ⟨2020, 6, 15⟩ [] Gender.male ⟨2030, 1, 1⟩ DonationType.wb400 =
        Verdict.blocked Reason.ageRestriction none ∧
      check_availability ⟨2020, 6, 15⟩ [] Gender.male ⟨2030, 1, 1⟩ DonationType.wb200 =
        Verdict.blocked Reason.ageRestriction none ∧
      check_availability ⟨2020, 6, 15⟩ [] Gender.male ⟨2030, 1, 1⟩ DonationType.component =
        Verdict.blocked Reason.ageRestriction none := by
  refine ⟨by decide, by decide, by decide⟩

/-- Claim C1, amended: the engine performs no precondition check at all. When
the profile's birth date lies strictly after the target date it does not fail
fast; it produces a full verdict map in which every donation type is blocked
with reason `AgeRestriction` (the computed age is nonpositive and fails every
age gate). -/
theorem birth_after_target_all_age_blocked (target : Date) (history : List DonationRecord)
    (gender : Gender) (birthday : Date) (ht : target.Valid) (hb : birthday.Valid)
    (h : dateLt target birthday) (don_type : DonationType) :
    check_availability target history gender birthday don_type =
      Verdict.blocked Reason.ageRestriction none := by
  have hage : ageYears target birthday ≤ 0 := ageYears_nonpos ht hb h
  have hfalse : ageOk don_type gender (ageYears target birthday) = false :=
    ageOk_eq_false_of_nonpos don_type gender hage
  unfold check_availability checkTypeSorted
  rw [hfalse]
  rfl

/-- Claim C1, witness for the amended theorem at a concrete input. -/
theorem birth_after_target_all_age_blocked_witness :
    check_availability ⟨2019, 2, 28⟩ [⟨0, DonationType.wb200, ⟨2019, 2, 1⟩⟩] Gender.female
      ⟨2030, 7, 4⟩ DonationType.wb200 = Verdict.blocked Reason.ageRestriction none :=
  birth_after_target_all_age_blocked ⟨2019, 2, 28⟩ [⟨0, DonationType.wb200, ⟨2019, 2, 1⟩⟩]
    Gender.female ⟨2030, 7, 4⟩ (by decide) (by decide) (by decide) DonationType.wb200

/-- Claim C7: the engine is deterministic and pure. A call of `evaluate`
leaves the session state (the history collection) unchanged, and calling it
again on the state left behind by a first call yields the identical verdict
map, for every fixed `(targetDate, profile, history)`. -/
theorem evaluate_pure (target : Date) (gender : Gender) (birthday : Date) (s : EngineState) :
    (evaluate target gender birthday s).2 = s ∧
      (evaluate target gender birthday ((evaluate target gender birthday s).2)).1 =
        (evaluate target gender birthday s).1 :=
  ⟨rfl, rfl⟩

/-- Claim C9: a concrete well-formed input on which the `AnnualVolumeCap`
verdict carries a `nextEligibleDate` equal to the target date itself. The
earliest whole-blood record of the half-open window sits exactly one year
before the target (2023-06-15), is excluded from the open-window sum, and the
three later 400 ml records push the sum past the male cap; the resolving date
2023-06-15 + 1 year is the target date 2024-06-15, not a strictly future
date. -/
theorem annual_cap_next_equals_target :
    check_availability ⟨2024, 6, 15⟩
        [⟨0, DonationType.wb400, ⟨2023, 6, 15⟩⟩, ⟨1, DonationType.wb400, ⟨2023, 8, 1⟩⟩,
          ⟨2, DonationType.wb400, ⟨2023, 10, 1⟩⟩, ⟨3, DonationType.wb400, ⟨2024, 1, 5⟩⟩]
        Gender.male ⟨1990, 1, 1⟩ DonationType.wb400 =
      Verdict.blocked Reason.annualVolumeCap (some ⟨2024, 6, 15⟩) ∧
    (Date.mk 2024 6 15).Valid ∧ (Date.mk 1990 1 1).Valid ∧ (Date.mk 2023 6 15).Valid ∧
    (Date.mk 2023 8 1).Valid ∧ (Date.mk 2023 10 1).Valid ∧ (Date.mk 2024 1 5).Valid := by
  refine ⟨by decide, by decide, by decide, by decide, by decide, by decide, by decide⟩

/-- Claim C6: a donor turning 18 exactly on the target date (computed age 18 at
the target, 17 on the day before) is not age-blocked for `Component` at the
target date, while on the day before the `Component` verdict is
`Blocked{AgeRestriction}`. -/
theorem component_age_boundary (target prev birthday : Date) (history : List DonationRecord)
    (gender : Gender) (hsucc : nextDay prev = target)
    (h18 : ageYears target birthday = 18) (h17 : ageYears prev birthday = 17) :
    (∀ o : Option Date,
        check_availability target history gender birthday DonationType.component ≠
          Verdict.blocked Reason.ageRestriction o) ∧
      check_availability prev history gender birthday DonationType.component =
        Verdict.blocked Reason.ageRestriction none := by
  constructor
  · intro o
    unfold check_availability checkTypeSorted
    rw [h18]
    have hok : ageOk DonationType.component gender 18 = true := rfl
    rw [hok]
    cases hI : intervalBlock target (sortedHistory history) gender DonationType.component with
    | none => simp [hI, isWholeBlood]
    | some next_available => simp [hI]
  · unfold check_availability checkTypeSorted
    rw [h17]
    have hko : ageOk DonationType.component gender 17 = false := rfl
    rw [hko]
    rfl

/-- Claim C6, witness at a concrete input: birthday 2000-03-10, target
2018-03-10 (the 18th birthday), the previous day 2018-03-09. -/
theorem component_age_boundary_witness :
    check_availability ⟨2018, 3, 10⟩ [] Gender.male ⟨2000, 3, 10⟩ DonationType.component ≠
        Verdict.blocked Reason.ageRestriction none ∧
      check_availability ⟨2018, 3, 9⟩ [] Gender.male ⟨2000, 3, 10⟩ DonationType.component =
        Verdict.blocked Reason.ageRestriction none :=
  ⟨(component_age_boundary ⟨2018, 3, 10⟩ ⟨2018, 3, 9⟩ ⟨2000, 3, 10⟩ [] Gender.male
      (by decide) (by decide) (by decide)).1 none,
    (component_age_boundary ⟨2018, 3, 10⟩ ⟨2018, 3, 9⟩ ⟨2000, 3, 10⟩ [] Gender.male
      (by decide) (by decide) (by decide)).2⟩

/-- Claim C8: whenever the engine blocks a type with reason `MinimumInterval`,
the accompanying next-eligible date lies strictly after the target date: the
source only takes that branch under `target_date < next_available` and reports
`next_available` itself. -/
theorem minimum_interval_next_strictly_future (target : Date) (history : List DonationRecord)
    (gender : Gender) (birthday : Date) (don_type : DonationType) (next : Date)
    (h : check_availability target history gender birthday don_type =
      Verdict.blocked Reason.minimumInterval (some next)) :
    dateLt target next := by
  unfold check_availability checkTypeSorted at h
  split at h
  · simp at h
  · split at h
    · rename_i na heq
      rw [Verdict.blocked.injEq, Option.some.injEq] at h
      obtain ⟨-, rfl⟩ := h
      unfold intervalBlock at heq
      split at heq
      · simp at heq
      · rename_i last hlast
        split at heq
        · rename_i hcond
          rw [Option.some.injEq] at heq
          rw [← heq]
          simp only [dateLtb, dateLt, decide_eq_true_eq] at hcond
          exact hcond
        · simp at heq
    · split at h
      · split at h
        · split at h
          · simp at h
          · simp at h
        · simp at h
      · simp at h

/-- Claim C8, witness: a 400 ml record on 2024-06-01 blocks a 400 ml request on
2024-06-15 with next-eligible date 2024-08-24, which lies strictly after. -/
theorem minimum_interval_next_strictly_future_witness :
    dateLt ⟨2024, 6, 15⟩ ⟨2024, 8, 24⟩ :=
  minimum_interval_next_strictly_future ⟨2024, 6, 15⟩
    [⟨0, DonationType.wb400, ⟨2024, 6, 1⟩⟩] Gender.male ⟨1990, 1, 1⟩ DonationType.wb400
    ⟨2024, 8, 24⟩ (by decide)

/-- Claim C5: with a single prior `WholeBlood200` record, a `WholeBlood400`
request exactly 5 weeks later is `Available` for any age-eligible donor: the
required wait is the 4 weeks keyed on the prior record's type, not a
12/16-week whole-blood-400 wait keyed on the requested type, and the annual
volume sum (at most 200 + 400 = 600 ml) stays within both gender caps. -/
theorem interval_keyed_on_prior_type (r : DonationRecord) (gender : Gender) (birthday : Date)
    (hr : r.start.Valid) (hty : r.title = DonationType.wb200)
    (hage : ageOk DonationType.wb400 gender (ageYears (addWeeks r.start 5) birthday) = true) :
    check_availability (addWeeks r.start 5) [r] gender birthday DonationType.wb400 =
      Verdict.available := by
  have hsort : sortedHistory [r] = [r] := rfl
  have h35 : dateLtb r.start (addWeeks r.start 5) = true := by
    simp only [dateLtb, dateLt, decide_eq_true_eq]
    exact key_lt_addDays hr (by omega)
  have hfilter : donations_before_target (addWeeks r.start 5) [r] = [r] := by
    simp [donations_before_target, List.filter, h35]
  have hnext : nextAvailableAfter r DonationType.wb400 gender = addWeeks r.start 4 := by
    simp [nextAvailableAfter, hty, isWholeBlood]
  have hnoblock : dateLtb (addWeeks r.start 5) (addWeeks r.start 4) = false := by
    simp only [dateLtb, dateLt, decide_eq_false_iff_not]
    intro hcon
    have hsplit : addWeeks r.start 5 = addDays (addWeeks r.start 4) 7 := by
      unfold addWeeks
      rw [show 7 * 5 = 7 * 4 + 7 from rfl, addDays_add]
    rw [hsplit] at hcon
    have hle : (addWeeks r.start 4).key ≤ (addDays (addWeeks r.start 4) 7).key :=
      key_le_addDays (addDays_valid hr (7 * 4)) 7
    omega
  have hIB : intervalBlock (addWeeks r.start 5) [r] gender DonationType.wb400 = none := by
    unfold intervalBlock
    rw [hfilter]
    simp only [List.getLast?_singleton]
    rw [hnext, hnoblock]
    simp
  have hvolle : annualVolume (addWeeks r.start 5) [r] ≤ 200 := by
    unfold annualVolume
    cases hio : inOpenWindow (addWeeks r.start 5) r with
    | false => simp [List.filter, hio]
    | true => simp [List.filter, hio, get_volume, hty]
  have hcap :
      ¬(MAX_VOLUME gender <
        annualVolume (addWeeks r.start 5) [r] + get_volume DonationType.wb400) := by
    cases gender <;> simp only [MAX_VOLUME, get_volume] <;> omega
  unfold check_availability
  rw [hsort]
  unfold checkTypeSorted
  rw [hage]
  simp only [Bool.not_true, Bool.false_eq_true, if_false, hIB, if_neg hcap]
  rfl

/-- Claim C5, witness: one 200 ml record on 2024-01-10, a 400 ml request on
2024-02-14 (five weeks later) by a male donor born 1990-01-01 is available. -/
theorem interval_keyed_on_prior_type_witness :
    check_availability (addWeeks ⟨2024, 1, 10⟩ 5) [⟨0, DonationType.wb200, ⟨2024, 1, 10⟩⟩]
      Gender.male ⟨1990, 1, 1⟩ DonationType.wb400 = Verdict.available :=
  interval_keyed_on_prior_type ⟨0, DonationType.wb200, ⟨2024, 1, 10⟩⟩ Gender.male ⟨1990, 1, 1⟩
    (by decide) (by decide) (by decide)

/-- Claim C4: records `A` and `B` share a donation date and `A` was appended to
the history before `B`. In the date-ascending view used to pick the reference
prior donation (ties broken by insertion order, since Python's `sorted` is
stable), restricted to dates strictly before the target, `B` still occurs
after `A`; consequently, when `A` occurs only once in the history, `A` is never
selected as the reference prior donation (the last element of that view). -/
theorem tie_break_insertion_order (target : Date) (l1 l2 l3 : List DonationRecord)
    (A B : DonationRecord) (hdate : A.start = B.start) (hlt : dateLt A.start target)
    (hcount : (l1 ++ A :: (l2 ++ B :: l3)).count A = 1) :
    [A, B] <+ donations_before_target target (sortedHistory (l1 ++ A :: (l2 ++ B :: l3))) ∧
      (donations_before_target target
          (sortedHistory (l1 ++ A :: (l2 ++ B :: l3)))).getLast? ≠ some A := by
  have hsub : [A, B] <+ l1 ++ A :: (l2 ++ B :: l3) := by
    have h1 : [B] <+ l2 ++ B :: l3 := List.singleton_sublist.mpr (by simp)
    have h2 : [A, B] <+ A :: (l2 ++ B :: l3) := List.Sublist.cons₂ A h1
    exact h2.trans (List.sublist_append_right l1 (A :: (l2 ++ B :: l3)))
  have hAB : recordLe A B := by
    unfold recordLe dateLe
    rw [hdate]
  have hstable : [A, B] <+ sortedHistory (l1 ++ A :: (l2 ++ B :: l3)) :=
    List.pair_sublist_insertionSort hAB hsub
  have hpA : dateLtb A.start target = true := by
    simp only [dateLtb, decide_eq_true_eq]
    exact hlt
  have hpB : dateLtb B.start target = true := by
    rw [← hdate]
    exact hpA
  have hfirst :
      [A, B] <+ donations_before_target target (sortedHistory (l1 ++ A :: (l2 ++ B :: l3))) := by
    have h := List.Sublist.filter (fun h => dateLtb h.start target) hstable
    rw [show List.filter (fun h => dateLtb h.start target) [A, B] = [A, B] from by
      simp [List.filter, hpA, hpB]] at h
    exact h
  refine ⟨hfirst, ?_⟩
  have hc1 :
      (donations_before_target target (sortedHistory (l1 ++ A :: (l2 ++ B :: l3)))).count A ≤
        1 := by
    have hfil :
        (donations_before_target target (sortedHistory (l1 ++ A :: (l2 ++ B :: l3)))).count A ≤
          (sortedHistory (l1 ++ A :: (l2 ++ B :: l3))).count A :=
      List.Sublist.count_le (List.filter_sublist _) A
    have hperm :
        (sortedHistory (l1 ++ A :: (l2 ++ B :: l3))).count A =
          (l1 ++ A :: (l2 ++ B :: l3)).count A :=
      (sortedHistory_perm _).count_eq A
    omega
  exact getLast?_ne_of_pair_sublist hfirst hc1

/-- Claim C4, witness: two records share the date 2024-01-10 (ids 0 and 1,
appended in that order); for a target of 2024-06-15 the date-ascending
strictly-before view keeps id 0 before id 1, and id 0 is not its last entry. -/
theorem tie_break_insertion_order_witness :
    [(⟨0, DonationType.wb400, ⟨2024, 1, 10⟩⟩ : DonationRecord),
        ⟨1, DonationType.wb200, ⟨2024, 1, 10⟩⟩] <+
      donations_before_target ⟨2024, 6, 15⟩
        (sortedHistory
          [⟨0, DonationType.wb400, ⟨2024, 1, 10⟩⟩, ⟨1, DonationType.wb200, ⟨2024, 1, 10⟩⟩]) ∧
      (donations_before_target ⟨2024, 6, 15⟩
          (sortedHistory
            [⟨0, DonationType.wb400, ⟨2024, 1, 10⟩⟩,
              ⟨1, DonationType.wb200, ⟨2024, 1, 10⟩⟩])).getLast? ≠
        some ⟨0, DonationType.wb400, ⟨2024, 1, 10⟩⟩ :=
  tie_break_insertion_order ⟨2024, 6, 15⟩ [] [] [] ⟨0, DonationType.wb400, ⟨2024, 1, 10⟩⟩
    ⟨1, DonationType.wb200, ⟨2024, 1, 10⟩⟩ (by decide) (by decide) (by decide)

/-- Claim C3: window boundary exactness. A whole-blood record dated exactly one
year minus one day before the target (the first day strictly inside the open
window) is counted in the annual-cap volume sum; a whole-blood record dated
exactly one year before the target is excluded from the volume sum (open
window) but satisfies the half-open-window predicate used for the
resolving-date search. -/
theorem window_boundary_exactness (target : Date) (history : List DonationRecord)
    (rIn rBd : DonationRecord) (ht : target.Valid)
    (hIn : rIn.start = nextDay (windowStart target)) (hInWb : isWholeBlood rIn.title = true)
    (hBd : rBd.start = windowStart target) (hBdWb : isWholeBlood rBd.title = true) :
    annualVolume target (rIn :: history) = get_volume rIn.title + annualVolume target history ∧
      annualVolume target (rBd :: history) = annualVolume target history ∧
      inHalfOpenWindow target rBd = true := by
  have h1 : dateLtb (windowStart target) rIn.start = true := by
    rw [hIn]
    simp only [dateLtb, decide_eq_true_eq]
    exact windowStart_lt_nextDay ht
  have h2 : dateLtb rIn.start target = true := by
    rw [hIn]
    simp only [dateLtb, decide_eq_true_eq]
    exact nextDay_windowStart_lt ht
  have h3 : dateLtb (windowStart target) rBd.start = false := by
    rw [hBd]
    simp [dateLtb, dateLt]
  have h4 : dateLeb (windowStart target) rBd.start = true := by
    rw [hBd]
    simp [dateLeb, dateLe]
  have h5 : dateLtb rBd.start target = true := by
    rw [hBd]
    simp only [dateLtb, decide_eq_true_eq]
    exact windowStart_lt ht
  refine ⟨?_, ?_, ?_⟩
  · unfold annualVolume
    simp [List.filter_cons, inOpenWindow, h1, h2, hInWb]
  · unfold annualVolume
    simp [List.filter_cons, inOpenWindow, h3]
  · simp [inHalfOpenWindow, h4, h5, hBdWb]

/-- Claim C3, witness: target 2024-06-15; the record dated 2023-06-16 (one year
minus one day before) adds its 400 ml to the sum, the record dated 2023-06-15
(exactly one year before) adds nothing but lies in the half-open window. -/
theorem window_boundary_exactness_witness :
    annualVolume ⟨2024, 6, 15⟩ [⟨0, DonationType.wb400, ⟨2023, 6, 16⟩⟩] =
        get_volume DonationType.wb400 + annualVolume ⟨2024, 6, 15⟩ [] ∧
      annualVolume ⟨2024, 6, 15⟩ [⟨1, DonationType.wb200, ⟨2023, 6, 15⟩⟩] =
        annualVolume ⟨2024, 6, 15⟩ [] ∧
      inHalfOpenWindow ⟨2024, 6, 15⟩ ⟨1, DonationType.wb200, ⟨2023, 6, 15⟩⟩ = true :=
  window_boundary_exactness ⟨2024, 6, 15⟩ [] ⟨0, DonationType.wb400, ⟨2023, 6, 16⟩⟩
    ⟨1, DonationType.wb200, ⟨2023, 6, 15⟩⟩ (by decide) (by decide) (by decide) (by decide)
    (by decide)

/-- Claim C2: for a whole-blood type that passes the age and minimum-interval
gates, when the open-window whole-blood volume sum plus the requested volume
exceeds the gender cap, the verdict is `Blocked{AnnualVolumeCap}` and the
next-eligible date is the date of the earliest whole-blood record of the
half-open window `[target - 1 year, target)` plus one year. -/
theorem annual_cap_blocks_with_earliest_resolver (target : Date)
    (history : List DonationRecord) (gender : Gender) (birthday : Date)
    (don_type : DonationType) (r : DonationRecord)
    (hvalid : ∀ x ∈ history, x.start.Valid)
    (hwb : isWholeBlood don_type = true)
    (hage : ageOk don_type gender (ageYears target birthday) = true)
    (hint : intervalBlock target (sortedHistory history) gender don_type = none)
    (hcap : MAX_VOLUME gender < annualVolume target history + get_volume don_type)
    (hr : r ∈ history) (hrwin : inHalfOpenWindow target r = true)
    (hmin : ∀ x ∈ history, inHalfOpenWindow target x = true → dateLe r.start x.start) :
    check_availability target history gender birthday don_type =
      Verdict.blocked Reason.annualVolumeCap (some (plusYears r.start 1)) := by
  have hvol : annualVolume target (sortedHistory history) = annualVolume target history := by
    unfold annualVolume
    exact (((sortedHistory_perm history).filter (inOpenWindow target)).map
      fun h => get_volume h.title).sum_eq
  have hrw : r ∈ (sortedHistory history).filter (inHalfOpenWindow target) :=
    List.mem_filter.mpr ⟨mem_sortedHistory.mpr hr, hrwin⟩
  unfold check_availability checkTypeSorted
  rw [hage, hint, hwb]
  simp only [Bool.not_true, Bool.false_eq_true, if_false]
  rw [hvol, if_pos hcap]
  cases hfe : (sortedHistory history).filter (inHalfOpenWindow target) with
  | nil =>
    rw [hfe] at hrw
    exact absurd hrw (by simp)
  | cons f rest =>
    rw [hfe] at hrw
    show Verdict.blocked Reason.annualVolumeCap (some (plusYears (minByStart f rest).start 1)) =
      Verdict.blocked Reason.annualVolumeCap (some (plusYears r.start 1))
    have hmemw : minByStart f rest ∈ (sortedHistory history).filter (inHalfOpenWindow target) := by
      rw [hfe]
      exact minByStart_mem f rest
    have hmemh : minByStart f rest ∈ history :=
      mem_sortedHistory.mp (List.mem_filter.mp hmemw).1
    have hmino : inHalfOpenWindow target (minByStart f rest) = true :=
      (List.mem_filter.mp hmemw).2
    have hle1 : r.start.key ≤ (minByStart f rest).start.key :=
      hmin (minByStart f rest) hmemh hmino
    have hle2 : (minByStart f rest).start.key ≤ r.start.key := minByStart_key_le f rest r hrw
    have hstart : (minByStart f rest).start = r.start :=
      Date.key_inj (hvalid (minByStart f rest) hmemh) (hvalid r hr) (Nat.le_antisymm hle2 hle1)
    rw [hstart]

/-- Claim C2, witness: female donor, target 2024-06-15; records 400 ml on
2023-06-15 (half-open boundary), 400 ml on 2023-12-01 and 200 ml on 2024-03-10.
The interval gate passes (200 ml prior means 4 weeks), the open-window sum is
600 ml and 600 + 400 exceeds the female cap 800; the earliest half-open-window
record is the boundary one, so the resolver is 2023-06-15 + 1 year. -/
theorem annual_cap_blocks_with_earliest_resolver_witness :
    check_availability ⟨2024, 6, 15⟩
        [⟨0, DonationType.wb400, ⟨2023, 6, 15⟩⟩, ⟨1, DonationType.wb400, ⟨2023, 12, 1⟩⟩,
          ⟨2, DonationType.wb200, ⟨2024, 3, 10⟩⟩]
        Gender.female ⟨1990, 1, 1⟩ DonationType.wb400 =
      Verdict.blocked Reason.annualVolumeCap (some (plusYears ⟨2023, 6, 15⟩ 1)) :=
  annual_cap_blocks_with_earliest_resolver ⟨2024, 6, 15⟩
    [⟨0, DonationType.wb400, ⟨2023, 6, 15⟩⟩, ⟨1, DonationType.wb400, ⟨2023, 12, 1⟩⟩,
      ⟨2, DonationType.wb200, ⟨2024, 3, 10⟩⟩]
    Gender.female ⟨1990, 1, 1⟩ DonationType.wb400 ⟨0, DonationType.wb400, ⟨2023, 6, 15⟩⟩
    (by decide) (by decide) (by decide) (by decide) (by decide) (by decide) (by decide)
    (by decide)

/-- On histories whose records carry pairwise distinct, well-formed dates, any
two permutations of the history have the same sorted view: both are sorted for
the (then strict) date order and sortedness plus permutation forces equality. -/
theorem sortedHistory_eq_of_perm {h1 h2 : List DonationRecord} (hperm : h1 ~ h2)
    (hvalid : ∀ x ∈ h1, x.start.Valid)
    (hdist : h1.Pairwise fun a b => a.start ≠ b.start) :
    sortedHistory h1 = sortedHistory h2 := by
  have hp1 : sortedHistory h1 ~ h1 := sortedHistory_perm h1
  have hp2 : sortedHistory h2 ~ h2 := sortedHistory_perm h2
  have hs1 : List.Sorted recordLe (sortedHistory h1) := List.sorted_insertionSort recordLe h1
  have hs2 : List.Sorted recordLe (sortedHistory h2) := List.sorted_insertionSort recordLe h2
  have hd1 : (sortedHistory h1).Pairwise fun a b => a.start ≠ b.start :=
    (hp1.pairwise_iff (fun h => h.symm)).mpr hdist
  have hd2 : (sortedHistory h2).Pairwise fun a b => a.start ≠ b.start :=
    ((hp2.trans hperm.symm).pairwise_iff (fun h => h.symm)).mpr hdist
  have hv1 : ∀ x ∈ sortedHistory h1, x.start.Valid := fun x hx => hvalid x (hp1.subset hx)
  have hv2 : ∀ x ∈ sortedHistory h2, x.start.Valid := fun x hx =>
    hvalid x (hperm.symm.subset (hp2.subset hx))
  have hstrict : ∀ {L : List DonationRecord}, List.Sorted recordLe L →
      (L.Pairwise fun a b => a.start ≠ b.start) → (∀ x ∈ L, x.start.Valid) →
      L.Pairwise fun a b => a.start.key < b.start.key := by
    intro L hs hd hv
    refine List.Pairwise.imp_of_mem ?_ (List.Pairwise.and hs hd)
    intro a b ha hb hab
    obtain ⟨hle, hne⟩ := hab
    have hle' : a.start.key ≤ b.start.key := hle
    have hkne : a.start.key ≠ b.start.key := fun hk =>
      hne (Date.key_inj (hv a ha) (hv b hb) hk)
    omega
  haveI : IsAntisymm DonationRecord fun a b => a.start.key < b.start.key :=
    ⟨fun _ _ hab hba => absurd hba (Nat.lt_asymm hab)⟩
  exact List.eq_of_perm_of_sorted (hp1.trans (hperm.trans hp2.symm))
    (hstrict hs1 hd1 hv1) (hstrict hs2 hd2 hv2)

/-- Claim C10: on histories whose records have pairwise distinct (well-formed)
dates, the verdict map is invariant under any permutation of the history list:
the engine reads the history only through its date-sorted view, which such
permutations cannot change. -/
theorem permutation_invariance (target : Date) (gender : Gender) (birthday : Date)
    (h1 h2 : List DonationRecord) (hperm : h1 ~ h2)
    (hvalid : ∀ x ∈ h1, x.start.Valid)
    (hdist : h1.Pairwise fun a b => a.start ≠ b.start) (don_type : DonationType) :
    check_availability target h1 gender birthday don_type =
      check_availability target h2 gender birthday don_type := by
  unfold check_availability
  rw [sortedHistory_eq_of_perm hperm hvalid hdist]

/-- Claim C10, witness: two records with distinct dates produce the same
verdict in either insertion order. -/
theorem permutation_invariance_witness :
    check_availability ⟨2024, 6, 15⟩
        [⟨0, DonationType.wb400, ⟨2024, 1, 10⟩⟩, ⟨1, DonationType.wb200, ⟨2024, 3, 5⟩⟩]
        Gender.male ⟨1990, 1, 1⟩ DonationType.wb400 =
      check_availability ⟨2024, 6, 15⟩
        [⟨1, DonationType.wb200, ⟨2024, 3, 5⟩⟩, ⟨0, DonationType.wb400, ⟨2024, 1, 10⟩⟩]
        Gender.male ⟨1990, 1, 1⟩ DonationType.wb400 :=
  permutation_invariance ⟨2024, 6, 15⟩ Gender.male ⟨1990, 1, 1⟩
    [⟨0, DonationType.wb400, ⟨2024, 1, 10⟩⟩, ⟨1, DonationType.wb200, ⟨2024, 3, 5⟩⟩]
    [⟨1, DonationType.wb200, ⟨2024, 3, 5⟩⟩, ⟨0, DonationType.wb400, ⟨2024, 1, 10⟩⟩]
    (List.Perm.swap (⟨1, DonationType.wb200, ⟨2024, 3, 5⟩⟩ : DonationRecord)
      (⟨0, DonationType.wb400, ⟨2024, 1, 10⟩⟩ : DonationRecord) [])
    (by decide) (by decide) DonationType.wb400
